import Mathlib

/-!
Verification of the `nm_evals` name-evaluation system against its
natural-language specification.

The repository is a Python batch tool that asks a language model how a
person's name should be rendered between English and Korean, parses the
free-text or JSON answer into a structured verdict, and aggregates results
into JSON/HTML reports.  This file gives a shallow embedding of the parts of
the code that the specification's testable properties talk about:

* the language-direction detector `detect_language`
  (`name_eval_system.py` lines 81-96 and the character-for-character
  identical copy in `real_person_name_verifier.py` lines 47-62);
* the free-text compliance-score scan of `evaluate_english_name`
  (`english_to_korean_evaluator.py` lines 279-319);
* the JSON / regex response extractor `name_evaluator` of
  `korean_to_english_evaluator.py` (lines 148-242);
* the three batch drivers `evaluate_english_names`, `batch_evaluate_names`
  and `evaluate_korean_names`;
* the Teamwork HTTP client's status handling (`teamwork_integration.py`)
  and `verify_name_in_teamwork`;
* the JSON report round trip (a value-level model of `json.dump` /
  `json.load` as the repository calls them: `ensure_ascii=False`, so
  non-ASCII Hangul is written raw);
* the exit-status computation of the two CLIs.

Python dynamic values (dicts, lists, strings, ints, bools, None) are
modelled by a single inductive type `Json`; Python dicts are ordered
association lists, matching CPython's insertion-ordered dicts.  External
effects (the LLM call, HTTP transport) are modelled as oracle parameters
returning `Except`, where `Except.error` models a raised exception.
Machine floats appear in the source only in the ratio comparison
`korean_chars / len(name) > 0.2`, which for the string lengths the tool
handles coincides with the exact rational comparison `5 * korean_chars >
len(name)`; we model the exact comparison.  Strings are processed as their
code-point lists (`String.data`) so that every definition reduces inside
the kernel.
-/

namespace NmEvals

/-! ## Python string primitives

Helpers mirroring the Python string operations the code uses.  The code
only ever inspects ASCII markers (`"score"`, `"compliance"`, digits), so
`str.lower` and `str.isdigit` are modelled on their ASCII behaviour. -/

/-- The whitespace characters Python's `str.strip()` / `str.split()`
treat as separators (ASCII range). -/
def isWs (c : Char) : Bool :=
  c == ' ' || c == '\t' || c == '\n' || c == '\r' || c == '\x0b' || c == '\x0c'

/-- ASCII behaviour of Python `str.lower` on a character. -/
def lowerCh (c : Char) : Char :=
  if 65 ≤ c.toNat && c.toNat ≤ 90 then Char.ofNat (c.toNat + 32) else c

/-- Python `str.lower` on a code-point list. -/
def lowerStr (s : List Char) : List Char := s.map lowerCh

/-- Does `s` start with `p`?  (One position of the Python substring
test `p in s`.) -/
def startsW (p s : List Char) : Bool :=
  match p, s with
  | [], _ => true
  | _ :: _, [] => false
  | a :: p', b :: s' => a == b && startsW p' s'

/-- Model of the Python substring test `p in s`. -/
def containsSub (p s : List Char) : Bool :=
  match s with
  | [] => p.isEmpty
  | _ :: s' => startsW p s || containsSub p s'

/-- Model of Python `str.isdigit` on the ASCII tokens the code parses:
nonempty and all decimal digits. -/
def pyIsDigit (w : List Char) : Bool := !w.isEmpty && w.all Char.isDigit

/-- Model of Python `int(...)` on a decimal-digit string. -/
def digitsToNat (w : List Char) : Nat := w.foldl (fun a c => 10 * a + (c.toNat - 48)) 0

/-- Model of Python `str.split(sep)` for a one-character separator. -/
def splitChAux (sep : Char) : List Char → List Char → List (List Char)
  | [], acc => [acc.reverse]
  | c :: cs, acc =>
    if c == sep then acc.reverse :: splitChAux sep cs [] else splitChAux sep cs (c :: acc)

/-- Python `s.split(sep)` (Python keeps empty pieces for an explicit separator). -/
def splitCh (sep : Char) (s : List Char) : List (List Char) := splitChAux sep s []

/-- Model of Python `str.strip()`. -/
def trimCh (s : List Char) : List Char :=
  ((s.dropWhile isWs).reverse.dropWhile isWs).reverse

/-- Model of Python `str.split()` (split on whitespace runs, dropping
empty pieces). -/
def wordsAux : List Char → List Char → List (List Char)
  | [], [] => []
  | [], acc => [acc.reverse]
  | c :: cs, acc =>
    if isWs c then
      (if acc.isEmpty then wordsAux cs [] else acc.reverse :: wordsAux cs [])
    else wordsAux cs (c :: acc)

/-- Python `str.split()` with no argument. -/
def pySplit (s : List Char) : List (List Char) := wordsAux s []

/-! ## Language-direction detector

`detect_language` (`name_eval_system.py:81-96`, identically
`real_person_name_verifier.py:47-62`):

    korean_chars = sum(1 for char in name if '가' <= char <= '힣')
    if korean_chars / len(name) > 0.2:
        return "ko"
    return "en"

For the empty string `len(name)` is `0` and the division raises an
uncaught `ZeroDivisionError`; the embedding returns `none` there.  The
ratio test `korean_chars / len(name) > 0.2` is modelled by the exact
rational comparison `5 * korean_chars > len(name)`. -/

/-- Is `c` inside the Hangul syllable block U+AC00 .. U+D7A3? -/
def isHangulSyl (c : Char) : Bool := decide (0xAC00 ≤ c.toNat) && decide (c.toNat ≤ 0xD7A3)

/-- The `korean_chars` count: the number of Hangul-syllable characters of `name`. -/
def hangulCount (name : String) : Nat := name.data.countP isHangulSyl

/-- The function `detect_language`.  `none` models the uncaught `ZeroDivisionError` on
the empty string. -/
def detectLanguage (name : String) : Option String :=
  if name.data.length = 0 then none
  else if 5 * hangulCount name > name.data.length then some "ko"
  else some "en"

/-! ## Free-text compliance-score scan

`evaluate_english_name` (`english_to_korean_evaluator.py:279-319`) splits
the model's reply on `"\n"` and walks the lines; the branch at lines
307-319 is

    if ("compliance" in line.lower() or "score" in line.lower()) and any(
        c.isdigit() for c in line
    ):
        for word in line.split():
            if word.isdigit() or (word.endswith("%") and word[:-1].isdigit()):
                score_str = word.rstrip("%")
                compliance_score = int(score_str)
                compliant = compliance_score >= 80  # CF standard
                break

with `line = line.strip()` applied first and `compliance_score = 0`,
`compliant = False` initially.  The other branches of the same loop assign
only to `korean_notation`, `verification_process`, `recommendations` and
`sources`, never to `compliance_score` or `compliant`, so projecting the
loop onto the pair `(compliance_score, compliant)` is faithful for those
two fields.  (`word.rstrip("%")` equals `word[:-1]` here because
`word[:-1].isdigit()` already excludes a second trailing `%`; the
`ValueError` branch of `int` is unreachable on ASCII digit tokens.) -/

/-- The first whitespace-delimited token of the line that is numeric or
numeric-percent, coerced to an integer. -/
def firstScoreToken (ws : List (List Char)) : Option Nat :=
  ws.findSome? fun w =>
    if pyIsDigit w then some (digitsToNat w)
    else if w.getLast? == some '%' && pyIsDigit w.dropLast then some (digitsToNat w.dropLast)
    else none

/-- Does the (stripped) line trigger the score branch: it mentions
"compliance" or "score" (case-insensitively) and holds a digit? -/
def scoreLineHit (line : List Char) : Bool :=
  (containsSub "compliance".data (lowerStr line) || containsSub "score".data (lowerStr line))
    && line.any Char.isDigit

/-- The score value the line contributes, if any. -/
def lineScoreToken (rawLine : List Char) : Option Nat :=
  let line := trimCh rawLine
  if scoreLineHit line then firstScoreToken (pySplit line) else none

/-- One iteration of the line scan, restricted to the
`(compliance_score, compliant)` state. -/
def scoreStep (st : Nat × Bool) (rawLine : List Char) : Nat × Bool :=
  match lineScoreToken rawLine with
  | some n => (n, decide (80 ≤ n))
  | none => st

/-- The `(compliance_score, compliant)` pair after scanning all lines. -/
def extractComplianceScoreLines (lines : List (List Char)) : Nat × Bool :=
  lines.foldl scoreStep (0, false)

/-- The `(compliance_score, compliant)` pair `evaluate_english_name`
computes from a raw model reply. -/
def extractComplianceScore (responseText : String) : Nat × Bool :=
  extractComplianceScoreLines (splitCh '\n' responseText.data)

/-! ## Python / JSON values

One inductive type models the Python values the code passes around: the
JSON values `json.loads` produces, the evaluation dicts the extractors
build, and the arguments threaded into `name_evaluator`.  Dicts are
ordered association lists (CPython dicts preserve insertion order, and
that order is what `json.dump` writes).  Numbers are integers: the only
numbers the code manufactures or reads out of responses are integer
scores. -/

inductive Json where
  | null : Json
  | bool (b : Bool) : Json
  | num (n : Int) : Json
  | str (s : String) : Json
  | arr (xs : List Json) : Json
  | obj (kvs : List (String × Json)) : Json

/-- Python truthiness (`bool(x)`) of a value. -/
def pyTruthy : Json → Bool
  | .null => false
  | .bool b => b
  | .num n => n != 0
  | .str s => !s.isEmpty
  | .arr xs => !xs.isEmpty
  | .obj kvs => !kvs.isEmpty

/-- Python `d.get(k, default)`.  The last binding wins, matching the dict
`json.loads` builds from duplicate keys. -/
def dictGetD (kvs : List (String × Json)) (k : String) (d : Json) : Json :=
  kvs.foldl (fun acc p => if p.1 == k then p.2 else acc) d

/-- Python `d[k] = v`: overwrite in place if the key exists, else append. -/
def dictSet (kvs : List (String × Json)) (k : String) (v : Json) : List (String × Json) :=
  if kvs.any (fun p => p.1 == k) then kvs.map (fun p => if p.1 == k then (k, v) else p)
  else kvs ++ [(k, v)]

/-- First binding for a key (the dicts the code updates with have
unique keys). -/
def dictLookup (kvs : List (String × Json)) (k : String) : Option Json :=
  (kvs.find? (fun p => p.1 == k)).map (fun p => p.2)

/-- Python `d.update(u)`: keys already in `d` are overwritten in place,
new keys are appended in `u`'s order.  (Closed one-pass form of the
iterated assignment; equivalent because every dict involved has unique
keys.) -/
def dictUpdate (kvs upd : List (String × Json)) : List (String × Json) :=
  kvs.map (fun p =>
    match dictLookup upd p.1 with
    | some v => (p.1, v)
    | none => p) ++
  upd.filter (fun q => !kvs.any (fun p => p.1 == q.1))

/-- Python `d.get(k, default)` on an evaluation value known to be a dict. -/
def jGet (j : Json) (k : String) (d : Json) : Json :=
  match j with
  | .obj kvs => dictGetD kvs k d
  | _ => d

/-! ## JSON serialization (`json.dump` with `ensure_ascii=False`)

`process_names` (`name_eval_system.py:346-349`),
`batch_evaluate_names` (`korean_name_evaluator.py:242-245`) and the other
report writers serialize the collected result list with
`json.dump(results, f, ensure_ascii=False, indent=2)`.  `indent` only
inserts whitespace, which `json.loads` skips again; the model therefore
prints the compact form and the parser below skips whitespace wherever
the real grammar allows it, so the value-level content is the same.
`ensure_ascii=False` writes non-ASCII (Hangul) characters raw, which is
how the serializer below behaves. -/

/-- One decimal digit as a character. -/
def digitCh (d : Nat) : Char := Char.ofNat (48 + d)

/-- Decimal printing of a natural number (fuel-based so it reduces in the
kernel; `n + 1` fuel always suffices). -/
def natCharsAux : Nat → Nat → List Char → List Char
  | 0, _, acc => acc
  | fuel + 1, n, acc =>
    if n < 10 then digitCh n :: acc
    else natCharsAux fuel (n / 10) (digitCh (n % 10) :: acc)

/-- Decimal representation of a natural number. -/
def natChars (n : Nat) : List Char := natCharsAux (n + 1) n []

/-- Decimal representation of an integer, as Python prints it. -/
def intChars (n : Int) : List Char :=
  if n < 0 then '-' :: natChars n.natAbs else natChars n.natAbs

mutual

/-- The characters `json.dump` writes for a value (compact whitespace;
see the section comment). -/
def dumpsChars : Json → List Char
  | .null => 'n' :: 'u' :: 'l' :: 'l' :: []
  | .bool true => 't' :: 'r' :: 'u' :: 'e' :: []
  | .bool false => 'f' :: 'a' :: 'l' :: 's' :: 'e' :: []
  | .num n => intChars n
  | .str s => '"' :: s.data ++ ['"']
  | .arr xs => '[' :: dumpsList xs ++ [']']
  | .obj kvs => '\x7b' :: dumpsObj kvs ++ ['\x7d']

/-- Array elements, comma-separated. -/
def dumpsList : List Json → List Char
  | [] => []
  | [x] => dumpsChars x
  | x :: y :: ys => dumpsChars x ++ ',' :: dumpsList (y :: ys)

/-- Object members, comma-separated `"key":value` pairs. -/
def dumpsObj : List (String × Json) → List Char
  | [] => []
  | [(k, v)] => '"' :: k.data ++ '"' :: ':' :: dumpsChars v
  | (k, v) :: kv :: kvs => ('"' :: k.data ++ '"' :: ':' :: dumpsChars v) ++ ',' :: dumpsObj (kv :: kvs)

end

/-- The output of `json.dump` on a value, as a string. -/
def dumps (v : Json) : String := String.mk (dumpsChars v)

/-! ## JSON parsing (`json.loads`)

A recursive-descent reader for the JSON subset the tool writes and the
model replies with: objects, arrays, strings without escape sequences,
integers, booleans, `null`.  Whitespace is skipped between tokens as in
the real grammar.  Recursion is fuelled by the input length so every run
reduces inside the kernel. -/

/-- Skip JSON whitespace. -/
def skipWs (cs : List Char) : List Char := cs.dropWhile isWs

/-- Read a string body after the opening quote (no escapes: the tool's
well-formed strings contain none). -/
def parseStrBody (cs : List Char) : Option (String × List Char) :=
  let body := cs.takeWhile (fun c => c != '"')
  match cs.dropWhile (fun c => c != '"') with
  | '"' :: rest => some (String.mk body, rest)
  | _ => none

/-- Read a run of decimal digits. -/
def parseNatTok (cs : List Char) : Option (Nat × List Char) :=
  let ds := cs.takeWhile Char.isDigit
  if ds.isEmpty then none else some (digitsToNat ds, cs.dropWhile Char.isDigit)

mutual

/-- Read one JSON value. -/
def parseVal : Nat → List Char → Option (Json × List Char)
  | 0, _ => none
  | fuel + 1, cs0 =>
    let cs := skipWs cs0
    if startsW ('n' :: 'u' :: 'l' :: 'l' :: []) cs then some (.null, cs.drop 4)
    else if startsW ('t' :: 'r' :: 'u' :: 'e' :: []) cs then some (.bool true, cs.drop 4)
    else if startsW ('f' :: 'a' :: 'l' :: 's' :: 'e' :: []) cs then some (.bool false, cs.drop 5)
    else
      match cs with
      | [] => none
      | c :: rest =>
        if c == '\x7b' then
          match skipWs rest with
          | [] => none
          | c' :: rest' =>
            if c' == '\x7d' then some (.obj [], rest')
            else (parseObjItems fuel (c' :: rest')).map (fun p => (.obj p.1, p.2))
        else if c == '[' then
          match skipWs rest with
          | [] => none
          | c' :: rest' =>
            if c' == ']' then some (.arr [], rest')
            else (parseArrItems fuel (c' :: rest')).map (fun p => (.arr p.1, p.2))
        else if c == '"' then (parseStrBody rest).map (fun p => (.str p.1, p.2))
        else if c == '-' then (parseNatTok rest).map (fun p => (.num (-(p.1 : Int)), p.2))
        else if c.isDigit then (parseNatTok (c :: rest)).map (fun p => (.num (p.1 : Int), p.2))
        else none

/-- Read `value (',' value)* ']'` inside an array. -/
def parseArrItems : Nat → List Char → Option (List Json × List Char)
  | 0, _ => none
  | fuel + 1, cs =>
    match parseVal fuel cs with
    | none => none
    | some (v, rest) =>
      match skipWs rest with
      | ',' :: rest' => (parseArrItems fuel rest').map (fun p => (v :: p.1, p.2))
      | ']' :: rest' => some ([v], rest')
      | _ => none

/-- Read `'"' key '"' ':' value (',' ...)* '}'` inside an object. -/
def parseObjItems : Nat → List Char → Option (List (String × Json) × List Char)
  | 0, _ => none
  | fuel + 1, cs =>
    match skipWs cs with
    | '"' :: rest =>
      match parseStrBody rest with
      | none => none
      | some (k, rest1) =>
        match skipWs rest1 with
        | ':' :: rest2 =>
          match parseVal fuel rest2 with
          | none => none
          | some (v, rest3) =>
            match skipWs rest3 with
            | ',' :: rest4 => (parseObjItems fuel rest4).map (fun p => ((k, v) :: p.1, p.2))
            | '\x7d' :: rest4 => some ([(k, v)], rest4)
            | _ => none
        | _ => none
    | _ => none

end

/-- Model of `json.loads`: parse a whole document, allowing surrounding
whitespace only. -/
def loads (s : String) : Option Json :=
  match parseVal (s.data.length + 1) s.data with
  | some (v, rest) => if (skipWs rest).isEmpty then some v else none
  | none => none

/-! ## Round-trip correctness of the JSON model

`parseVal` recovers exactly the value `dumpsChars` printed, for every
well-formed value: strings must not contain a quote, a backslash or a
control character (the dump of such a string would use escape sequences,
which the tool's data never needs — Hangul passes through raw because of
`ensure_ascii=False`). -/

/-- Well-formedness of a serialized string: no escape sequences needed. -/
def wfStr (s : String) : Bool :=
  s.data.all (fun c => c != '"' && c != '\\' && decide (32 ≤ c.toNat))

mutual

/-- Well-formedness of a value for serialization. -/
def wfJson : Json → Bool
  | .null => true
  | .bool _ => true
  | .num _ => true
  | .str s => wfStr s
  | .arr xs => wfList xs
  | .obj kvs => wfObj kvs

/-- All array elements well-formed. -/
def wfList : List Json → Bool
  | [] => true
  | x :: xs => wfJson x && wfList xs

/-- All keys and values well-formed. -/
def wfObj : List (String × Json) → Bool
  | [] => true
  | (k, v) :: kvs => wfStr k && wfJson v && wfObj kvs

end

/-- What may legally follow a serialized value: nothing, or a list /
object delimiter. -/
def goodRest : List Char → Prop
  | [] => True
  | c :: _ => (c == ',' || c == ']' || c == '\x7d') = true

/-! ## Code-fence stripping

`name_evaluator` (`korean_to_english_evaluator.py:190-194`) strips an
optional Markdown fence before `json.loads`:

    json_match = re.search(r"```(?:json)?(.*?)```", response_text, re.DOTALL)
    if json_match:
        json_text = json_match.group(1).strip()

The model scans for the first backtick triple; the optional literal
`json` is consumed when present (the alternative backtracking path can
never produce a different match because `json` contains no backtick);
the non-greedy group ends at the next backtick triple.  If the first
opening triple has no closing triple, no later start position can match
either (any later triple would itself have served as the closing one),
so the whole search fails, as in the regex engine. -/

/-- The backtick character (code point 96). -/
def btick : Char := Char.ofNat 96

/-- A backtick triple. -/
def ticks : List Char := btick :: btick :: btick :: []

/-- Content before the first backtick triple, if one occurs. -/
def splitAtTicks : List Char → Option (List Char)
  | [] => none
  | c :: cs => if startsW ticks (c :: cs) then some [] else (splitAtTicks cs).map (c :: ·)

/-- Match the fence body starting right after an opening triple. -/
def fenceFrom (after : List Char) : Option (List Char) :=
  splitAtTicks (if startsW ('j' :: 's' :: 'o' :: 'n' :: []) after then after.drop 4 else after)

/-- Model of `re.search` for the fence pattern: the capture of the first match. -/
def findFence : List Char → Option (List Char)
  | [] => none
  | c :: cs => if startsW ticks (c :: cs) then fenceFrom (cs.drop 2) else findFence cs

/-- The `json_text` value: the fenced body (stripped) when a fence matches, the
whole response otherwise. -/
def stripFence (responseText : List Char) : List Char :=
  match findFence responseText with
  | some content => trimCh content
  | none => responseText

/-! ## Regex fallback extraction

The `except` branch of `name_evaluator`
(`korean_to_english_evaluator.py:220-240`) recovers three critical
fields by regex when JSON parsing fails:

    re.search(r'"english_notation":\s*"([^"]+)"', response_text)
    re.search(r'"compliant":\s*(true|false)', response_text, re.IGNORECASE)
    re.search(r'"overall_score":\s*(\d+)', response_text)

Each model scans left to right and, at each position, attempts the whole
pattern, continuing on failure — the leftmost-match rule. -/

/-- Consume a literal, or fail. -/
def dropLit (p cs : List Char) : Option (List Char) :=
  if startsW p cs then some (cs.drop p.length) else none

/-- One attempt of the english-notation pattern at the current position. -/
def tryNotAt (cs : List Char) : Option (List Char) :=
  match dropLit ('"' :: "english_notation".data ++ '"' :: ':' :: []) cs with
  | none => none
  | some r1 =>
    match r1.dropWhile isWs with
    | '"' :: r3 =>
      let cap := r3.takeWhile (fun c => c != '"')
      if cap.isEmpty then none
      else
        match r3.dropWhile (fun c => c != '"') with
        | '"' :: _ => some cap
        | _ => none
    | _ => none

/-- Leftmost match of the english-notation pattern. -/
def scanEnglish : List Char → Option (List Char)
  | [] => none
  | c :: cs =>
    match tryNotAt (c :: cs) with
    | some cap => some cap
    | none => scanEnglish cs

/-- One attempt of the compliant pattern (on lowercased text,
modelling `re.IGNORECASE`). -/
def tryCompliantAt (cs : List Char) : Option Bool :=
  match dropLit ('"' :: "compliant".data ++ '"' :: ':' :: []) cs with
  | none => none
  | some r1 =>
    let r2 := r1.dropWhile isWs
    if startsW ('t' :: 'r' :: 'u' :: 'e' :: []) r2 then some true
    else if startsW ('f' :: 'a' :: 'l' :: 's' :: 'e' :: []) r2 then some false
    else none

/-- Leftmost match of the compliant pattern. -/
def scanCompliantLower : List Char → Option Bool
  | [] => none
  | c :: cs =>
    match tryCompliantAt (c :: cs) with
    | some b => some b
    | none => scanCompliantLower cs

/-- The pattern `"compliant":\s*(true|false)` with `re.IGNORECASE`, then
`group(1).lower() == "true"`. -/
def scanCompliant (cs : List Char) : Option Bool := scanCompliantLower (lowerStr cs)

/-- One attempt of the overall-score pattern. -/
def tryScoreAt (cs : List Char) : Option Nat :=
  match dropLit ('"' :: "overall_score".data ++ '"' :: ':' :: []) cs with
  | none => none
  | some r1 =>
    let ds := (r1.dropWhile isWs).takeWhile Char.isDigit
    if ds.isEmpty then none else some (digitsToNat ds)

/-- Leftmost match of the overall-score pattern, coerced with `int`. -/
def scanScore : List Char → Option Nat
  | [] => none
  | c :: cs =>
    match tryScoreAt (c :: cs) with
    | some n => some n
    | none => scanScore cs

/-! ## The KO-EN response extractor (`name_evaluator`)

`korean_to_english_evaluator.py:148-242`.  The closure formats the
Teamwork context, invokes the LLM chain, then fills a default evaluation
dict: on a successful `json.loads` of the (fence-stripped) text it
prefers every parsed field via `data.get`; when parsing raises — or the
parsed value is not a dict, so `data.get` raises `AttributeError` inside
the same `try` — it appends a parse-error note (the model uses a fixed
note text in place of Python's exception string) and falls back to the
three regexes above.  The LLM call is an oracle `LlmInput → Except`;
`Except.error` models a raised transport exception, which nothing in
`name_evaluator` catches. -/

/-- What the prompt template receives. -/
structure LlmInput where
  name : String
  processText : String
  resourcesText : String
  teamworkContext : String

/-- Python `str(x)` as used inside the f-strings of the context builder (the
repr of nested containers is not modelled; the fields interpolated are
strings or `None` in practice). -/
def pyStr : Json → String
  | .null => "None"
  | .bool true => "True"
  | .bool false => "False"
  | .num n => String.mk (intChars n)
  | .str s => s
  | .arr _ => "<list>"
  | .obj _ => "<dict>"

/-- Lines 149-160: the Teamwork context block.  The `matches` iteration
happens only when `teamwork_results` is a dict whose `matches` entry is
truthy. -/
def teamworkContext (teamworkResults : Json) : String :=
  match teamworkResults with
  | .obj kvs =>
    if pyTruthy (dictGetD kvs "matches" .null) then
      let ms := match dictGetD kvs "matches" .null with
        | .arr xs => xs
        | _ => []
      ms.foldl
        (fun acc m =>
          acc ++ "- Task: " ++ pyStr (jGet m "task_name" .null) ++ "\n" ++
            "  Translation: " ++ pyStr (jGet m "translation" (.str "Not specified")) ++ "\n")
        "Previous translations found in Teamwork:\n"
    else "No previous translations found in Teamwork."
  | _ => "No previous translations found in Teamwork."

/-- Lines 174-242: build the evaluation dict from the raw response. -/
def extractEvaluation (name : String) (teamworkResults : Json) (responseText : String) :
    List (String × Json) :=
  let base : List (String × Json) :=
    [("name", .str name),
     ("english_notation", .str ""),
     ("verification_process", .obj []),
     ("verification_sources", .arr []),
     ("compliant", .bool false),
     ("overall_score", .num 0),
     ("notes", .str ("Raw evaluation:\n" ++ responseText)),
     ("teamwork_verification", teamworkResults)]
  match loads (String.mk (stripFence responseText.data)) with
  | some (.obj kvs) =>
    dictUpdate base
      [("english_notation", dictGetD kvs "english_notation" (.str "")),
       ("romanization_compliant", dictGetD kvs "romanization_compliant" (.bool false)),
       ("hyphenation_compliant", dictGetD kvs "hyphenation_compliant" (.bool false)),
       ("capitalization_compliant", dictGetD kvs "capitalization_compliant" (.bool false)),
       ("verification_process", dictGetD kvs "verification_process" (.obj [])),
       ("verification_sources", dictGetD kvs "verification_sources" (.arr [])),
       ("reference_links", dictGetD kvs "reference_links" (.arr [])),
       ("termbase_entry", dictGetD kvs "termbase_entry" (.obj [])),
       ("compliant", dictGetD kvs "compliant" (.bool false)),
       ("overall_score", dictGetD kvs "overall_score" (.num 0)),
       ("recommendations", dictGetD kvs "recommendations" (.arr []))]
  | _ =>
    let e1 := dictSet base "notes"
      (.str ("Raw evaluation:\n" ++ responseText ++ "\nJSON parsing error"))
    let e2 := match scanEnglish responseText.data with
      | some cap => dictSet e1 "english_notation" (.str (String.mk (trimCh cap)))
      | none => e1
    let e3 := match scanCompliant responseText.data with
      | some b => dictSet e2 "compliant" (.bool b)
      | none => e2
    match scanScore responseText.data with
    | some n => dictSet e3 "overall_score" (.num n)
    | none => e3

/-- The `name_evaluator` closure: format the context, call the chain,
extract.  A transport error from the chain propagates. -/
def nameEvaluator (llm : LlmInput → Except String String)
    (processText resourcesText : String) (name : String) (teamworkResults : Json) :
    Except String Json :=
  match llm ⟨name, processText, resourcesText, teamworkContext teamworkResults⟩ with
  | .error e => .error e
  | .ok responseText => .ok (.obj (extractEvaluation name teamworkResults responseText))

/-! ## The three batch drivers -/

/-- The error entry both catching batch drivers append
(`english_to_korean_evaluator.py:396-400`,
`korean_name_evaluator.py:233-240`). -/
def errEntry (name e : String) : Json :=
  .obj [("name", .str name), ("error", .str e),
    ("compliant", .bool false), ("overall_score", .num 0)]

/-- Embeds `evaluate_english_names` (`english_to_korean_evaluator.py:378-409`):
per-name try/except, error entries keep the batch going.  The per-name
evaluator (an LLM round trip) is an oracle. -/
def evaluateEnglishNames (ev : String → Except String Json) (names : List String) :
    List Json :=
  names.map fun n =>
    match ev n with
    | .ok r => r
    | .error e => errEntry n e

/-- Embeds `batch_evaluate_names` (`korean_name_evaluator.py:208-247`): same
per-name try/except structure with the same error-entry keys. -/
def batchEvaluateNames (ev : String → Except String Json) (names : List String) :
    List Json :=
  names.map fun n =>
    match ev n with
    | .ok r => r
    | .error e => errEntry n e

/-- Embeds `evaluate_korean_names` (`korean_to_english_evaluator.py:274-304`):
builds one evaluator and loops `result = evaluator(name, check_teamwork)`
with NO try/except, so the Boolean `check_teamwork` flag sits in the
`teamwork_results` parameter position and an exception aborts the whole
batch (`Except.error`). -/
def evaluateKoreanNames (llm : LlmInput → Except String String)
    (processText resourcesText : String) (names : List String) (checkTeamwork : Bool) :
    Except String (List Json) :=
  match names with
  | [] => .ok []
  | n :: rest =>
    match nameEvaluator llm processText resourcesText n (.bool checkTeamwork) with
    | .error e => .error e
    | .ok r =>
      match evaluateKoreanNames llm processText resourcesText rest checkTeamwork with
      | .error e => .error e
      | .ok rs => .ok (r :: rs)

/-! ## Teamwork HTTP client and `verify_name_in_teamwork`

`teamwork_integration.py`.  `requests.Response.raise_for_status` raises
`HTTPError` exactly for status codes 400-599; the client methods call it
on every status other than 200 and fall off the end (returning `None`)
when it does not raise. -/

/-- An HTTP response: status code and decoded JSON body. -/
structure HttpResponse where
  statusCode : Nat
  body : Json

/-- Model of `response.raise_for_status()`. -/
def raiseForStatus (code : Nat) : Except String Unit :=
  if 400 ≤ code ∧ code < 600 then .error ("HTTPError " ++ String.mk (natChars code))
  else .ok ()

/-- Embeds `TeamworkClient.get_projects` (`teamwork_integration.py:86-102`):
return the decoded project list on 200; otherwise `raise_for_status`,
and when that does not raise the method implicitly returns `None`
(modelled `Except.ok none`). -/
def getProjects (resp : HttpResponse) : Except String (Option Json) :=
  if resp.statusCode = 200 then .ok (some (jGet resp.body "projects" (.arr [])))
  else
    match raiseForStatus resp.statusCode with
    | .error e => .error e
    | .ok _ => .ok none

/-- Embeds `get_previous_evaluations` (`teamwork_integration.py:357-386`):
filter the search results down to evaluation tasks. -/
def filterEvaluations (tasks : List Json) : List Json :=
  tasks.filterMap fun task =>
    let taskName := match jGet task "content" (.str "") with
      | .str s => s
      | _ => ""
    if containsSub "Name Evaluation:".data taskName.data ||
        containsSub "name evaluation".data (lowerStr taskName.data) then
      some (.obj [("task_id", jGet task "id" .null),
        ("project_id", jGet task "projectId" .null),
        ("title", jGet task "content" .null),
        ("url", jGet task "url" .null),
        ("created_at", jGet task "created-on" .null)])
    else none

/-- Embeds `verify_name_in_teamwork` (`teamwork_integration.py:389-449`).  The
search (called once directly and once through
`get_previous_evaluations`; the oracle is pure, so both see the same
list) sits inside one broad `try`: any raised error is converted to the
could-not-verify record.  The diagnostic "direct API check" block at the
top catches its own exceptions and only prints, so it is not modelled. -/
def verifyNameInTeamwork (search : String → Except String (List Json)) (name : String) :
    Json :=
  match search name with
  | .error e =>
    .obj [("name", .str name), ("found_in_teamwork", .bool false), ("error", .str e),
      ("verification_status", .str "Error - could not verify")]
  | .ok results =>
    let evals := filterEvaluations results
    let status :=
      if !evals.isEmpty then "Verified - multiple evaluations found"
      else if !results.isEmpty then "Prior translations found - detailed verification needed"
      else "Not found in Teamwork records"
    .obj [("name", .str name),
      ("found_in_teamwork", .bool (!results.isEmpty || !evals.isEmpty)),
      ("previous_translations", .arr results),
      ("previous_evaluations", .arr evals),
      ("verification_status", .str status)]

/-! ## CLI exit statuses -/

/-- Python `sum(1 for r in results if r.get("compliant", False))` (Python
truthiness). -/
def countCompliantEntries (results : List Json) : Nat :=
  results.countP fun r => pyTruthy (jGet r "compliant" (.bool false))

/-- Embeds `korean_name_cli.py:137-154`: the summary counts and
`sys.exit(0 if compliant_count == len(names) else 1)`. -/
def koreanCliExit (names : List String) (results : List Json) : Nat :=
  if countCompliantEntries results = names.length then 0 else 1

/-- The evaluation phase of `korean_name_cli.main`: run the batch, then
exit by compliance. -/
def koreanCliMain (ev : String → Except String Json) (names : List String) :
    List Json × Nat :=
  let results := batchEvaluateNames ev names
  (results, koreanCliExit names results)

/-- The per-direction summary `name_eval_system.main` prints
(lines 565-577). -/
structure EvalSummary where
  totalEvaluated : Nat
  koCompliant : Nat
  enCompliant : Nat

/-- The tail of `name_eval_system.main` (`name_eval_system.py:501-597`):
it prints the summary computed from the results and returns without ever
calling `sys.exit`, so the interpreter exits with status 0 no matter how
many names were non-compliant. -/
def nameEvalSystemMain (koResults enResults : List Json) : EvalSummary × Nat :=
  (⟨koResults.length + enResults.length,
    countCompliantEntries koResults, countCompliantEntries enResults⟩, 0)

/-! ## Fixtures for concrete runs

Concrete oracles and values used to instantiate the theorems below. -/

/-- An ASCII letter (used to state the spec's "composed entirely of
ASCII letters"). -/
def isAsciiLetter (c : Char) : Bool :=
  (65 ≤ c.toNat && c.toNat ≤ 90) || (97 ≤ c.toNat && c.toNat ≤ 122)

/-- An LLM transport that fails on the first sample name. -/
def failingLlm : LlmInput → Except String String :=
  fun inp => if inp.name = "김지원" then .error "Connection error" else .ok "evaluation text"

/-- The spec's canned fenced-JSON response. -/
def fencedResp : String :=
  "```\x7b\"english_notation\":\"Kim Ji-won\",\"compliant\":true,\"overall_score\":97\x7d```"

/-- An LLM oracle answering plain free text. -/
def freeTextLlm : LlmInput → Except String String := fun _ => .ok "free text reply"

/-- The evaluation record `name_evaluator` builds for that free-text
reply with `teamwork_results = True`. -/
def freeTextResult : Json := .obj (extractEvaluation "김지원" (.bool true) "free text reply")

/-- A per-name evaluator that always returns a compliant record. -/
def allCompliantEv : String → Except String Json :=
  fun n => .ok (.obj [("name", .str n), ("compliant", .bool true), ("overall_score", .num 95)])

/-- A per-name evaluator whose transport fails on one specific name. -/
def mixedEv : String → Except String Json :=
  fun n =>
    if n = "Emma Watson" then .error "APIConnectionError"
    else .ok (.obj [("name", .str n), ("compliant", .bool true), ("overall_score", .num 90)])

/-- A result record judged non-compliant. -/
def nonCompliantResult : Json :=
  .obj [("name", .str "John Smith"), ("compliant", .bool false), ("overall_score", .num 40)]

/-- A Teamwork search oracle whose request raises. -/
def failingSearch : String → Except String (List Json) := fun _ => .error "timeout"

/-! ## Theorems: free-text score scan -/

theorem scoreStep_snd (st : Nat × Bool) (h : st.2 = decide (80 ≤ st.1)) (l : List Char) :
    (scoreStep st l).2 = decide (80 ≤ (scoreStep st l).1) := by
  unfold scoreStep
  cases lineScoreToken l <;> simp [h]

theorem foldl_scoreStep_snd :
    ∀ (lines : List (List Char)) (st : Nat × Bool), st.2 = decide (80 ≤ st.1) →
      (lines.foldl scoreStep st).2 = decide (80 ≤ (lines.foldl scoreStep st).1)
  | [], _, h => h
  | l :: ls, st, h => foldl_scoreStep_snd ls (scoreStep st l) (scoreStep_snd st h l)

/-- The extracted `compliant` flag always equals `score ≥ 80`. -/
theorem extract_compliant_iff (s : String) :
    (extractComplianceScore s).2 = decide (80 ≤ (extractComplianceScore s).1) :=
  foldl_scoreStep_snd _ _ (by decide)


/-! ## Theorems: JSON round trip -/

theorem char_beq_false {a b : Char} (h : a ≠ b) : (a == b) = false := by
  cases hh : a == b
  · rfl
  · exact absurd (eq_of_beq hh) h

theorem ne_of_digit_of_not {c x : Char} (hc : c.isDigit = true) (hx : x.isDigit = false) :
    c ≠ x := fun e => by rw [e, hx] at hc; cases hc

theorem digitCh_isDigit {d : Nat} (h : d < 10) : (digitCh d).isDigit = true := by
  interval_cases d <;> decide

theorem digitCh_toNat {d : Nat} (h : d < 10) : (digitCh d).toNat = 48 + d := by
  interval_cases d <;> decide

theorem digit_not_ws {c : Char} (h : c.isDigit = true) : isWs c = false := by
  simp only [isWs, Bool.or_eq_false_iff]
  refine ⟨⟨⟨⟨⟨?_, ?_⟩, ?_⟩, ?_⟩, ?_⟩, ?_⟩ <;>
    exact char_beq_false (ne_of_digit_of_not h (by decide))

theorem natCharsAux_append : ∀ (fuel n : Nat) (acc : List Char),
    natCharsAux fuel n acc = natCharsAux fuel n [] ++ acc
  | 0, _, _ => rfl
  | fuel + 1, n, acc => by
    simp only [natCharsAux]
    by_cases h : n < 10
    · simp [h]
    · simp only [h, if_false]
      rw [natCharsAux_append fuel (n / 10) (digitCh (n % 10) :: acc),
        natCharsAux_append fuel (n / 10) [digitCh (n % 10)]]
      simp

theorem natCharsAux_digits : ∀ (fuel n : Nat) (c : Char),
    c ∈ natCharsAux fuel n [] → c.isDigit = true
  | 0, _, _, h => absurd h (by simp [natCharsAux])
  | fuel + 1, n, c, h => by
    simp only [natCharsAux] at h
    by_cases hn : n < 10
    · simp [hn] at h
      rw [h]; exact digitCh_isDigit hn
    · simp only [hn, if_false] at h
      rw [natCharsAux_append] at h
      rcases List.mem_append.mp h with h' | h'
      · exact natCharsAux_digits fuel (n / 10) c h'
      · simp at h'
        rw [h']; exact digitCh_isDigit (Nat.mod_lt _ (by omega))

theorem natCharsAux_ne_nil : ∀ (fuel n : Nat), 0 < fuel → natCharsAux fuel n [] ≠ []
  | 0, _, h => absurd h (by omega)
  | fuel + 1, n, _ => by
    simp only [natCharsAux]
    by_cases hn : n < 10
    · simp [hn]
    · simp only [hn, if_false]
      rw [natCharsAux_append]
      simp

/-- The digit-fold step used by `digitsToNat`. -/
theorem natCharsAux_foldl : ∀ (fuel n : Nat), n < 10 ^ fuel → ∀ (a : Nat),
    (natCharsAux fuel n []).foldl (fun a c => 10 * a + (c.toNat - 48)) a =
      a * 10 ^ (natCharsAux fuel n []).length + n
  | 0, n, hb, a => by
    simp only [pow_zero, Nat.lt_one_iff] at hb
    simp [natCharsAux, hb]
  | fuel + 1, n, hb, a => by
    simp only [natCharsAux]
    by_cases hn : n < 10
    · simp only [hn, if_true, List.foldl, List.length_cons, List.length_nil,
        digitCh_toNat hn, pow_one, zero_add]
      omega
    · simp only [hn, if_false]
      rw [natCharsAux_append]
      have hd : n / 10 < 10 ^ fuel := by
        rw [Nat.div_lt_iff_lt_mul (by omega)]
        calc n < 10 ^ (fuel + 1) := hb
        _ = 10 ^ fuel * 10 := by ring
      rw [List.foldl_append, natCharsAux_foldl fuel (n / 10) hd a]
      simp only [List.foldl, List.length_append, List.length_cons, List.length_nil]
      rw [digitCh_toNat (Nat.mod_lt _ (by omega))]
      have := Nat.div_add_mod n 10
      ring_nf
      omega

theorem natChars_ne_nil (n : Nat) : natChars n ≠ [] :=
  natCharsAux_ne_nil (n + 1) n (by omega)

theorem natChars_digits {n : Nat} {c : Char} (h : c ∈ natChars n) : c.isDigit = true :=
  natCharsAux_digits (n + 1) n c h

theorem digitsToNat_natChars (n : Nat) : digitsToNat (natChars n) = n := by
  have hb : n < 10 ^ (n + 1) :=
    lt_of_lt_of_le (Nat.lt_pow_self (by omega) n) (Nat.pow_le_pow_right (by omega) (by omega))
  have := natCharsAux_foldl (n + 1) n hb 0
  simpa [digitsToNat, natChars] using this

theorem natChars_head (n : Nat) : ∃ c t, natChars n = c :: t ∧ c.isDigit = true := by
  cases h : natChars n with
  | nil => exact absurd h (natChars_ne_nil n)
  | cons c t => exact ⟨c, t, rfl, natChars_digits (h ▸ List.mem_cons_self c t)⟩

theorem takeWhile_app {p : Char → Bool} :
    ∀ (u v : List Char), (∀ c ∈ u, p c = true) → (u ++ v).takeWhile p = u ++ v.takeWhile p
  | [], _, _ => rfl
  | c :: u, v, h => by
    have hc := h c (List.mem_cons_self c u)
    simp only [List.cons_append, List.takeWhile_cons, hc, if_true]
    rw [takeWhile_app u v (fun x hx => h x (List.mem_cons_of_mem c hx))]

theorem dropWhile_app {p : Char → Bool} :
    ∀ (u v : List Char), (∀ c ∈ u, p c = true) → (u ++ v).dropWhile p = v.dropWhile p
  | [], _, _ => rfl
  | c :: u, v, h => by
    have hc := h c (List.mem_cons_self c u)
    simp only [List.cons_append, List.dropWhile_cons, hc, if_true]
    exact dropWhile_app u v (fun x hx => h x (List.mem_cons_of_mem c hx))

theorem takeWhile_head_false {p : Char → Bool} :
    ∀ (v : List Char), (∀ c t, v = c :: t → p c = false) → v.takeWhile p = []
  | [], _ => rfl
  | c :: t, h => by simp [List.takeWhile_cons, h c t rfl]

theorem dropWhile_head_false {p : Char → Bool} :
    ∀ (v : List Char), (∀ c t, v = c :: t → p c = false) → v.dropWhile p = v
  | [], _ => rfl
  | c :: t, h => by simp [List.dropWhile_cons, h c t rfl]

theorem goodRest_not_digit {rest : List Char} (h : goodRest rest) :
    ∀ c t, rest = c :: t → c.isDigit = false := by
  intro c t he
  subst he
  simp only [goodRest] at h
  rcases Bool.or_eq_true_iff.mp h with h' | h'
  · rcases Bool.or_eq_true_iff.mp h' with h'' | h''
    · rw [eq_of_beq h'']; rfl
    · rw [eq_of_beq h'']; rfl
  · rw [eq_of_beq h']; rfl

theorem parseNatTok_natChars (n : Nat) (rest : List Char) (hrest : goodRest rest) :
    parseNatTok (natChars n ++ rest) = some (n, rest) := by
  have hall : ∀ c ∈ natChars n, Char.isDigit c = true := fun c hc => natChars_digits hc
  have ht : (natChars n ++ rest).takeWhile Char.isDigit = natChars n ++ [] := by
    rw [takeWhile_app _ _ hall, takeWhile_head_false rest (goodRest_not_digit hrest)]
  have hd : (natChars n ++ rest).dropWhile Char.isDigit = rest := by
    rw [dropWhile_app _ _ hall, dropWhile_head_false rest (goodRest_not_digit hrest)]
  simp only [parseNatTok, ht, hd, List.append_nil]
  rw [if_neg (by simpa using natChars_ne_nil n)]
  rw [digitsToNat_natChars]

theorem skipWs_cons {c : Char} {t : List Char} (h : isWs c = false) :
    skipWs (c :: t) = c :: t := by
  simp [skipWs, List.dropWhile_cons, h]

theorem wfStr_no_quote {s : String} (h : wfStr s = true) :
    ∀ c ∈ s.data, (c != '"') = true := by
  intro c hc
  have := (List.all_eq_true.mp h) c hc
  exact (Bool.and_eq_true_iff.mp ((Bool.and_eq_true_iff.mp this).1)).1

theorem parseStrBody_dumps (s : String) (hs : wfStr s = true) (rest : List Char) :
    parseStrBody (s.data ++ '"' :: rest) = some (s, rest) := by
  have ht : (s.data ++ '"' :: rest).takeWhile (fun c => c != '"') = s.data ++ [] := by
    rw [takeWhile_app _ _ (wfStr_no_quote hs), takeWhile_head_false]
    intro c t he
    cases he; decide
  have hd : (s.data ++ '"' :: rest).dropWhile (fun c => c != '"') = '"' :: rest := by
    rw [dropWhile_app _ _ (wfStr_no_quote hs), dropWhile_head_false]
    intro c t he
    cases he; decide
  simp only [parseStrBody, ht, hd, List.append_nil]

theorem dumpsChars_head (v : Json) :
    ∃ c t, dumpsChars v = c :: t ∧ isWs c = false ∧ (c == ']') = false ∧
      (c == '\x7d') = false := by
  cases v with
  | null => exact ⟨'n', _, rfl, by decide, by decide, by decide⟩
  | bool b =>
    cases b with
    | false => exact ⟨'f', _, rfl, by decide, by decide, by decide⟩
    | true => exact ⟨'t', _, rfl, by decide, by decide, by decide⟩
  | num n =>
    simp only [dumpsChars, intChars]
    by_cases h : n < 0
    · exact ⟨'-', natChars n.natAbs, by simp [h], by decide, by decide, by decide⟩
    · obtain ⟨c, t, he, hdig⟩ := natChars_head n.natAbs
      refine ⟨c, t, by simp [h, he], digit_not_ws hdig, ?_, ?_⟩
      · exact char_beq_false (ne_of_digit_of_not hdig (by decide))
      · exact char_beq_false (ne_of_digit_of_not hdig (by decide))
  | str s => exact ⟨'"', _, rfl, by decide, by decide, by decide⟩
  | arr xs => exact ⟨'[', _, rfl, by decide, by decide, by decide⟩
  | obj kvs => exact ⟨'\x7b', _, rfl, by decide, by decide, by decide⟩

theorem dumpsChars_len_pos (v : Json) : 0 < (dumpsChars v).length := by
  obtain ⟨c, t, he, -, -, -⟩ := dumpsChars_head v
  simp [he]

theorem dumpsList_head (x : Json) (xs : List Json) :
    ∃ c t, dumpsList (x :: xs) = c :: t ∧ isWs c = false ∧ (c == ']') = false := by
  obtain ⟨c, t, he, hws, hrb, -⟩ := dumpsChars_head x
  cases xs with
  | nil => exact ⟨c, t, by simp [dumpsList, he], hws, hrb⟩
  | cons y ys =>
    exact ⟨c, t ++ ',' :: dumpsList (y :: ys), by simp [dumpsList, he], hws, hrb⟩

/-- The serialized form of a well-formed value parses back to exactly that
value (with any delimiter-headed remainder untouched), and likewise for
array-item and object-member lists.  The fuel only needs to cover the
length of the serialized text. -/
theorem parse_dumps (fuel : Nat) :
    (∀ v rest, wfJson v = true → (dumpsChars v).length ≤ fuel → goodRest rest →
      parseVal fuel (dumpsChars v ++ rest) = some (v, rest)) ∧
    (∀ xs rest, xs ≠ [] → wfList xs = true → (dumpsList xs).length < fuel →
      parseArrItems fuel (dumpsList xs ++ ']' :: rest) = some (xs, rest)) ∧
    (∀ kvs rest, kvs ≠ [] → wfObj kvs = true → (dumpsObj kvs).length < fuel →
      parseObjItems fuel (dumpsObj kvs ++ '\x7d' :: rest) = some (kvs, rest)) := by
  induction fuel with
  | zero =>
    refine ⟨fun v rest _ hlen _ => ?_, fun xs rest _ _ h => by omega,
      fun kvs rest _ _ h => by omega⟩
    have := dumpsChars_len_pos v
    omega
  | succ fuel ih =>
    obtain ⟨ihV, ihA, ihO⟩ := ih
    refine ⟨?_, ?_, ?_⟩
    · intro v rest hwf hlen hrest
      cases v with
      | null =>
        simp only [dumpsChars, List.cons_append, List.nil_append]
        simp [parseVal, skipWs_cons (show isWs 'n' = false by decide), startsW, List.drop]
      | bool b =>
        cases b with
        | false =>
          simp only [dumpsChars, List.cons_append, List.nil_append]
          simp [parseVal, skipWs_cons (show isWs 'f' = false by decide), startsW, List.drop]
        | true =>
          simp only [dumpsChars, List.cons_append, List.nil_append]
          simp [parseVal, skipWs_cons (show isWs 't' = false by decide), startsW, List.drop]
      | num n =>
        simp only [dumpsChars, intChars]
        by_cases hn : n < 0
        · have htok := parseNatTok_natChars n.natAbs rest hrest
          have hval : -((n.natAbs : Int)) = n := by omega
          have hvabs : -|n| = n := by rw [abs_of_neg hn, neg_neg]
          simp only [if_pos hn, List.cons_append]
          simp [parseVal, skipWs_cons (show isWs '-' = false by decide), startsW, htok,
            hval, hvabs]
        · obtain ⟨c, t, he, hdig⟩ := natChars_head n.natAbs
          have h1 : (('n' : Char) == c) = false :=
            char_beq_false (Ne.symm (ne_of_digit_of_not hdig (by decide)))
          have h2 : (('t' : Char) == c) = false :=
            char_beq_false (Ne.symm (ne_of_digit_of_not hdig (by decide)))
          have h3 : (('f' : Char) == c) = false :=
            char_beq_false (Ne.symm (ne_of_digit_of_not hdig (by decide)))
          have h4 : (c == '\x7b') = false := char_beq_false (ne_of_digit_of_not hdig (by decide))
          have h5 : (c == '[') = false := char_beq_false (ne_of_digit_of_not hdig (by decide))
          have h6 : (c == '"') = false := char_beq_false (ne_of_digit_of_not hdig (by decide))
          have h7 : (c == '-') = false := char_beq_false (ne_of_digit_of_not hdig (by decide))
          have htok : parseNatTok (c :: (t ++ rest)) = some (n.natAbs, rest) := by
            have hx : c :: (t ++ rest) = natChars n.natAbs ++ rest := by simp [he]
            rw [hx, parseNatTok_natChars _ _ hrest]
          have hval : ((n.natAbs : Int)) = n := by omega
          have hvabs : |n| = n := abs_of_nonneg (not_lt.mp hn)
          simp only [if_neg hn, he, List.cons_append]
          simp [parseVal, skipWs_cons (digit_not_ws hdig), startsW,
            h1, h2, h3, h4, h5, h6, h7, hdig, htok, hval, hvabs]
      | str s =>
        have hwfs : wfStr s = true := by simpa [wfJson] using hwf
        have hb := parseStrBody_dumps s hwfs rest
        simp only [dumpsChars, List.cons_append, List.append_assoc, List.singleton_append]
        simp [parseVal, skipWs_cons (show isWs '"' = false by decide), startsW, hb]
      | arr xs =>
        have hwfl : wfList xs = true := by simpa [wfJson] using hwf
        cases xs with
        | nil =>
          simp only [dumpsChars, dumpsList, List.cons_append, List.nil_append]
          simp [parseVal, skipWs_cons (show isWs '[' = false by decide), startsW,
            skipWs_cons (show isWs ']' = false by decide)]
        | cons x xs' =>
          obtain ⟨c, t, he, hws, hrb⟩ := dumpsList_head x xs'
          have hlen' : (dumpsList (x :: xs')).length < fuel := by
            simp [dumpsChars] at hlen
            omega
          have harr := ihA (x :: xs') rest (by simp) hwfl hlen'
          have hDL : dumpsList (x :: xs') ++ ']' :: rest = c :: (t ++ ']' :: rest) := by
            rw [he]; rfl
          have harr' : parseArrItems fuel (c :: (t ++ ']' :: rest)) =
              some (x :: xs', rest) := by rw [← hDL]; exact harr
          simp only [dumpsChars, List.cons_append, List.append_assoc, List.singleton_append]
          simp [parseVal, skipWs_cons (show isWs '[' = false by decide), startsW,
            hDL, skipWs_cons hws, hrb, harr']
      | obj kvs =>
        have hwfo : wfObj kvs = true := by simpa [wfJson] using hwf
        cases kvs with
        | nil =>
          simp only [dumpsChars, dumpsObj, List.cons_append, List.nil_append]
          simp [parseVal, skipWs_cons (show isWs '\x7b' = false by decide), startsW,
            skipWs_cons (show isWs '\x7d' = false by decide)]
        | cons kv kvs' =>
          obtain ⟨k, v⟩ := kv
          have hlen' : (dumpsObj ((k, v) :: kvs')).length < fuel := by
            simp [dumpsChars] at hlen
            omega
          have hobj := ihO ((k, v) :: kvs') rest (by simp) hwfo hlen'
          obtain ⟨X, hX⟩ : ∃ X, dumpsObj ((k, v) :: kvs') = '"' :: X := by
            cases kvs' <;> exact ⟨_, rfl⟩
          have hDO : dumpsObj ((k, v) :: kvs') ++ '\x7d' :: rest =
              '"' :: (X ++ '\x7d' :: rest) := by rw [hX]; rfl
          have hobj' : parseObjItems fuel ('"' :: (X ++ '\x7d' :: rest)) =
              some ((k, v) :: kvs', rest) := by rw [← hDO]; exact hobj
          simp only [dumpsChars, List.cons_append, List.append_assoc, List.singleton_append]
          simp [parseVal, skipWs_cons (show isWs '\x7b' = false by decide), startsW,
            hDO, skipWs_cons (show isWs '"' = false by decide), hobj']
    · intro xs rest hne hwf hlen
      cases xs with
      | nil => exact absurd rfl hne
      | cons x xs' =>
        have hwx : wfJson x = true ∧ wfList xs' = true := by
          simpa [wfList, Bool.and_eq_true] using hwf
        cases xs' with
        | nil =>
          have hv := ihV x (']' :: rest) hwx.1
            (by simp [dumpsList] at hlen; omega) (by rfl)
          simp only [dumpsList]
          simp [parseArrItems, hv, skipWs_cons (show isWs ']' = false by decide)]
        | cons y ys =>
          have hlx := dumpsChars_len_pos x
          simp only [dumpsList, List.length_append, List.length_cons] at hlen
          have hv := ihV x (',' :: (dumpsList (y :: ys) ++ ']' :: rest)) hwx.1
            (by omega) (by rfl)
          have ha := ihA (y :: ys) rest (by simp) hwx.2 (by omega)
          simp only [dumpsList, List.append_assoc, List.cons_append]
          simp [parseArrItems, hv, skipWs_cons (show isWs ',' = false by decide), ha]
    · intro kvs rest hne hwf hlen
      cases kvs with
      | nil => exact absurd rfl hne
      | cons kv kvs' =>
        obtain ⟨k, v⟩ := kv
        have hwx : wfStr k = true ∧ wfJson v = true ∧ wfObj kvs' = true := by
          simpa [wfObj, Bool.and_eq_true, and_assoc] using hwf
        cases kvs' with
        | nil =>
          have hsb := parseStrBody_dumps k hwx.1 (':' :: (dumpsChars v ++ '\x7d' :: rest))
          have hv' := ihV v ('\x7d' :: rest) hwx.2.1
            (by simp [dumpsObj] at hlen; omega) (by rfl)
          simp only [dumpsObj, List.cons_append, List.append_assoc]
          simp [parseObjItems, skipWs_cons (show isWs '"' = false by decide), hsb,
            skipWs_cons (show isWs ':' = false by decide), hv',
            skipWs_cons (show isWs '\x7d' = false by decide)]
        | cons kv2 more =>
          have hlv := dumpsChars_len_pos v
          simp only [dumpsObj, List.length_append, List.length_cons] at hlen
          have hsb := parseStrBody_dumps k hwx.1
            (':' :: (dumpsChars v ++ ',' :: (dumpsObj (kv2 :: more) ++ '\x7d' :: rest)))
          have hv' := ihV v (',' :: (dumpsObj (kv2 :: more) ++ '\x7d' :: rest)) hwx.2.1
            (by omega) (by rfl)
          have ho := ihO (kv2 :: more) rest (by simp) hwx.2.2 (by omega)
          simp only [dumpsObj, List.cons_append, List.append_assoc]
          simp [parseObjItems, skipWs_cons (show isWs '"' = false by decide), hsb,
            skipWs_cons (show isWs ':' = false by decide), hv',
            skipWs_cons (show isWs ',' = false by decide), ho]

/-- Parsing recovers every well-formed value `json.dump` wrote. -/
theorem loads_dumps (v : Json) (h : wfJson v = true) : loads (dumps v) = some v := by
  have hd : (dumps v).data = dumpsChars v := rfl
  have hp := (parse_dumps ((dumpsChars v).length + 1)).1 v [] h (by omega) trivial
  rw [List.append_nil] at hp
  simp [loads, hd, hp, skipWs]

/-! ## Shared helper lemmas for the claim theorems -/

theorem data_ne_nil {s : String} (h : s ≠ "") : s.data ≠ [] := by
  intro hc
  apply h
  cases s with
  | mk l => cases hc; rfl

theorem data_len_pos {s : String} (h : s ≠ "") : 0 < s.data.length :=
  List.length_pos.mpr (data_ne_nil h)

/-! ## Claim theorems -/

/-- C1, counterexample.  The claim says `detect_language` must not raise
an uncaught division error on the empty string (either a guarded error or
an English default).  The code computes `korean_chars / len(name)` with
no length guard, so the empty string raises an uncaught
`ZeroDivisionError` — modelled as `none`, the one input where the
function fails. -/
theorem detect_language_empty_raises : detectLanguage "" = none := rfl

/-- C1, amended.  For the empty string `detect_language` performs `0/0`
and raises an uncaught `ZeroDivisionError` (no guard, no English
default); for every non-empty string it returns a verdict without
raising. -/
theorem detect_language_empty_behavior :
    detectLanguage "" = none ∧
    ∀ s : String, s ≠ "" → (detectLanguage s).isSome = true := by
  refine ⟨rfl, fun s hs => ?_⟩
  have hlen := data_len_pos hs
  unfold detectLanguage
  rw [if_neg (by omega)]
  split <;> rfl

/-- C1, witness. -/
theorem detect_language_empty_behavior_witness : (detectLanguage "김지원").isSome = true :=
  detect_language_empty_behavior.2 "김지원" (by decide)

/-- C6.  Every non-empty all-Hangul name is classified Korean; every
non-empty all-ASCII-letter name is classified English; in general a
non-empty name is classified Korean exactly when its Hangul-syllable
proportion exceeds 20% (`5 * korean_chars > len(name)`). -/
theorem detect_language_classification :
    (∀ s : String, s ≠ "" → (∀ c ∈ s.data, isHangulSyl c = true) →
      detectLanguage s = some "ko") ∧
    (∀ s : String, s ≠ "" → (∀ c ∈ s.data, isAsciiLetter c = true) →
      detectLanguage s = some "en") ∧
    (∀ s : String, s ≠ "" →
      (detectLanguage s = some "ko" ↔ 5 * hangulCount s > s.data.length)) := by
  refine ⟨fun s hs hall => ?_, fun s hs hall => ?_, fun s hs => ?_⟩
  · have hlen := data_len_pos hs
    have hcnt : hangulCount s = s.data.length := List.countP_eq_length.mpr hall
    unfold detectLanguage
    rw [if_neg (by omega), if_pos (by omega)]
  · have hlen := data_len_pos hs
    have hcnt : hangulCount s = 0 := by
      apply List.countP_eq_zero.mpr
      intro c hc
      have ha := hall c hc
      simp only [isAsciiLetter, Bool.or_eq_true, Bool.and_eq_true, decide_eq_true_eq] at ha
      simp only [isHangulSyl, Bool.and_eq_true, decide_eq_true_eq, not_and]
      omega
    unfold detectLanguage
    rw [if_neg (by omega), if_neg (by omega)]
  · have hlen := data_len_pos hs
    unfold detectLanguage
    rw [if_neg (by omega)]
    by_cases h : 5 * hangulCount s > s.data.length
    · rw [if_pos h]
      exact ⟨fun _ => h, fun _ => rfl⟩
    · rw [if_neg h]
      exact ⟨fun hh => absurd (Option.some.inj hh) (by decide), fun hh => absurd hh h⟩

/-- C6, witness. -/
theorem detect_language_classification_witness :
    detectLanguage "김지원" = some "ko" ∧ detectLanguage "John" = some "en" :=
  ⟨detect_language_classification.1 "김지원" (by decide) (by decide),
   detect_language_classification.2.1 "John" (by decide) (by decide)⟩

/-- C4.  The free-text extractor: on a canned response containing the
line `Compliance score: 92` it yields score 92 and compliant; on
`Compliance: 45%` it yields 45 and non-compliant; for any line that
mentions "score"/"compliance" with a digit, the first whitespace token
that is numeric or numeric-percent becomes the score; and the resulting
`compliant` always equals `score ≥ 80`. -/
theorem free_text_score_extraction :
    extractComplianceScore
        "The recommended English form follows the guidelines.\nCompliance score: 92\nSources:\n- NIKL" =
      (92, true) ∧
    extractComplianceScore "Compliance: 45%" = (45, false) ∧
    (∀ (l : List Char) (n : Nat), lineScoreToken l = some n →
      extractComplianceScoreLines [l] = (n, decide (80 ≤ n))) ∧
    (∀ s : String,
      (extractComplianceScore s).2 = decide (80 ≤ (extractComplianceScore s).1)) := by
  refine ⟨by decide, by decide, fun l n h => ?_, extract_compliant_iff⟩
  simp [extractComplianceScoreLines, scoreStep, h]

/-- C4, witness. -/
theorem free_text_score_extraction_witness :
    extractComplianceScoreLines ["Overall score: 85".data] = (85, true) := by
  have h := free_text_score_extraction.2.2.1 "Overall score: 85".data 85 (by decide)
  simpa using h

/-- C2, counterexample.  The claim says every parsed `overall_score` is
coerced into [0, 100].  The free-text line scan stores the parsed
integer without clamping: the line `Compliance score: 150` yields 150. -/
theorem free_text_score_out_of_range :
    extractComplianceScore "Compliance score: 150" = (150, true) ∧ ¬((150 : Nat) ≤ 100) :=
  ⟨by decide, by decide⟩

/-- C2, amended.  `overall_score` is parsed to an integer and defaults
to 0 on parse failure in each extraction path (free-text line scan; the
KO-EN extractor when both JSON parsing and the score regex fail), but it
is NOT clamped into [0, 100]: out-of-range parsed values are stored
as-is. -/
theorem overall_score_default_and_unclamped :
    (∀ lines : List (List Char), (∀ l ∈ lines, lineScoreToken l = none) →
      extractComplianceScoreLines lines = (0, false)) ∧
    (∀ (name : String) (tw : Json) (resp : String),
      loads (String.mk (stripFence resp.data)) = none → scanScore resp.data = none →
      dictGetD (extractEvaluation name tw resp) "overall_score" Json.null = Json.num 0) ∧
    (∃ s : String, 100 < (extractComplianceScore s).1) := by
  refine ⟨?_, ?_, ⟨"Compliance score: 150", by decide⟩⟩
  · intro lines h
    induction lines with
    | nil => rfl
    | cons l ls ih =>
      have h0 := h l (List.mem_cons_self l ls)
      show (l :: ls).foldl scoreStep (0, false) = (0, false)
      simp only [List.foldl, scoreStep, h0]
      exact ih fun x hx => h x (List.mem_cons_of_mem l hx)
  · intro name tw resp hl hs
    simp only [extractEvaluation, hl, hs]
    rcases he : scanEnglish resp.data with _ | cap <;>
      rcases hc : scanCompliant resp.data with _ | b <;>
        simp only [he, hc] <;> rfl

/-- C2, witness. -/
theorem overall_score_default_and_unclamped_witness :
    extractComplianceScoreLines ["no digits here".data] = (0, false) ∧
    dictGetD (extractEvaluation "김지원" (Json.bool true) "totally unstructured")
      "overall_score" Json.null = Json.num 0 :=
  ⟨overall_score_default_and_unclamped.1 ["no digits here".data] (by decide),
   overall_score_default_and_unclamped.2.1 "김지원" (Json.bool true) "totally unstructured"
     rfl rfl⟩

/-- C5.  The KO-EN extractor on the spec's fenced response yields the
parsed values Kim Ji-won / compliant / 97; in general, whenever
`json.loads` of the fence-stripped text succeeds on a dict, the three
critical fields come from that dict (never from the regexes); only when
parsing fails do they come from the regex fallback. -/
theorem json_fields_preferred_over_regex :
    (dictGetD (extractEvaluation "김지원" (Json.bool false) fencedResp)
        "english_notation" Json.null = Json.str "Kim Ji-won" ∧
      dictGetD (extractEvaluation "김지원" (Json.bool false) fencedResp)
        "compliant" Json.null = Json.bool true ∧
      dictGetD (extractEvaluation "김지원" (Json.bool false) fencedResp)
        "overall_score" Json.null = Json.num 97) ∧
    (∀ (name : String) (tw : Json) (resp : String) (kvs : List (String × Json)),
      loads (String.mk (stripFence resp.data)) = some (.obj kvs) →
      dictGetD (extractEvaluation name tw resp) "english_notation" Json.null =
          dictGetD kvs "english_notation" (Json.str "") ∧
        dictGetD (extractEvaluation name tw resp) "compliant" Json.null =
          dictGetD kvs "compliant" (Json.bool false) ∧
        dictGetD (extractEvaluation name tw resp) "overall_score" Json.null =
          dictGetD kvs "overall_score" (Json.num 0)) ∧
    (∀ (name : String) (tw : Json) (resp : String),
      loads (String.mk (stripFence resp.data)) = none →
      dictGetD (extractEvaluation name tw resp) "english_notation" Json.null =
          (match scanEnglish resp.data with
            | some cap => Json.str (String.mk (trimCh cap))
            | none => Json.str "") ∧
        dictGetD (extractEvaluation name tw resp) "compliant" Json.null =
          (match scanCompliant resp.data with
            | some b => Json.bool b
            | none => Json.bool false) ∧
        dictGetD (extractEvaluation name tw resp) "overall_score" Json.null =
          (match scanScore resp.data with
            | some n => Json.num n
            | none => Json.num 0)) := by
  refine ⟨⟨rfl, rfl, rfl⟩, fun name tw resp kvs h => ?_, fun name tw resp h => ?_⟩
  · simp only [extractEvaluation, h]
    exact ⟨rfl, rfl, rfl⟩
  · simp only [extractEvaluation, h]
    rcases he : scanEnglish resp.data with _ | cap <;>
      rcases hc : scanCompliant resp.data with _ | b <;>
        rcases hs : scanScore resp.data with _ | n <;>
          simp only [he, hc, hs] <;> exact ⟨rfl, rfl, rfl⟩

/-- C5, witness. -/
theorem json_fields_preferred_over_regex_witness :
    dictGetD
        (extractEvaluation "박서준" Json.null "\x7b\"english_notation\": \"Park Seo-joon\"\x7d")
        "english_notation" Json.null = Json.str "Park Seo-joon" := by
  have h := json_fields_preferred_over_regex.2.1 "박서준" Json.null
    "\x7b\"english_notation\": \"Park Seo-joon\"\x7d"
    [("english_notation", Json.str "Park Seo-joon")] rfl
  exact h.1

/-- C3, counterexample.  The claim says all three batch evaluators keep
going past a transport failure.  `evaluate_korean_names` has no per-name
try/except: with two names and a transport failure on the first, the
whole batch aborts with the exception instead of producing two result
entries. -/
theorem korean_batch_aborts_on_error :
    evaluateKoreanNames failingLlm "" "" ["김지원", "박서준"] true =
      Except.error "Connection error" := rfl

/-- C3, amended.  `evaluate_english_names` and `batch_evaluate_names`
produce exactly one entry per input name — the failing name's entry is
the error record (compliant false, the error string recorded) and every
other name is still processed — but `evaluate_korean_names` propagates
any transport exception and aborts the batch. -/
theorem batch_error_isolation :
    (∀ (ev : String → Except String Json) (names : List String),
      (evaluateEnglishNames ev names).length = names.length ∧
      (batchEvaluateNames ev names).length = names.length) ∧
    (∀ (ev : String → Except String Json) (names : List String) (i : Nat),
      (evaluateEnglishNames ev names)[i]? =
        (names[i]?).map (fun n => match ev n with
          | .ok r => r
          | .error e => errEntry n e) ∧
      (batchEvaluateNames ev names)[i]? =
        (names[i]?).map (fun n => match ev n with
          | .ok r => r
          | .error e => errEntry n e)) ∧
    (∀ n e : String, jGet (errEntry n e) "compliant" Json.null = Json.bool false ∧
      jGet (errEntry n e) "error" Json.null = Json.str e ∧
      jGet (errEntry n e) "name" Json.null = Json.str n) ∧
    (∀ (llm : LlmInput → Except String String) (pt rt : String) (names : List String)
      (ct : Bool) (n e : String), n ∈ names →
      llm ⟨n, pt, rt, teamworkContext (Json.bool ct)⟩ = .error e →
      ∃ e', evaluateKoreanNames llm pt rt names ct = .error e') := by
  refine ⟨fun ev names => ⟨by simp [evaluateEnglishNames], by simp [batchEvaluateNames]⟩,
    fun ev names i => ⟨?_, ?_⟩, fun n e => ⟨rfl, rfl, rfl⟩, ?_⟩
  · simp [evaluateEnglishNames, List.getElem?_map]
  · simp [batchEvaluateNames, List.getElem?_map]
  · intro llm pt rt names ct n e
    induction names with
    | nil => intro h; cases h
    | cons x xs ih =>
      intro hmem hfail
      rcases List.mem_cons.mp hmem with heq | hmem'
      · subst heq
        refine ⟨e, ?_⟩
        simp only [evaluateKoreanNames, nameEvaluator, hfail]
      · cases hx : nameEvaluator llm pt rt x (Json.bool ct) with
        | error e2 =>
          refine ⟨e2, ?_⟩
          simp only [evaluateKoreanNames, hx]
        | ok r =>
          obtain ⟨e', he'⟩ := ih hmem' hfail
          refine ⟨e', ?_⟩
          simp only [evaluateKoreanNames, hx, he']

/-- C3, witness. -/
theorem batch_error_isolation_witness :
    (evaluateEnglishNames mixedEv ["John Smith", "Emma Watson", "Chris Hemsworth"])[1]? =
      some (errEntry "Emma Watson" "APIConnectionError") ∧
    (∃ e', evaluateKoreanNames failingLlm "" "" ["김지원"] true = Except.error e') :=
  ⟨(batch_error_isolation.2.1 mixedEv ["John Smith", "Emma Watson", "Chris Hemsworth"] 1).1,
   batch_error_isolation.2.2.2 failingLlm "" "" ["김지원"] true "김지원" "Connection error"
     (List.mem_singleton.mpr rfl) rfl⟩

/-- C7, counterexample.  The claim says every non-2xx response makes the
request method raise.  `raise_for_status` raises only for 4xx/5xx: a 304
response is not 2xx, yet `get_projects` returns `None` without
raising. -/
theorem non_2xx_without_raise :
    getProjects ⟨304, Json.obj []⟩ = Except.ok none ∧ ¬(200 ≤ 304 ∧ 304 < 300) :=
  ⟨rfl, by omega⟩

/-- C7, amended.  `get_projects` raises exactly for status codes
400-599 (other non-200 statuses fall through and return `None`; 200
returns the project list), and `verify_name_in_teamwork` never
propagates an error: every raised exception is converted into the
record with `found_in_teamwork = False` and status "Error - could not
verify". -/
theorem http_error_semantics :
    (∀ resp : HttpResponse,
      (∃ e, getProjects resp = .error e) ↔
        400 ≤ resp.statusCode ∧ resp.statusCode < 600) ∧
    (∀ resp : HttpResponse, resp.statusCode = 200 →
      getProjects resp = .ok (some (jGet resp.body "projects" (Json.arr [])))) ∧
    (∀ (search : String → Except String (List Json)) (name e : String),
      search name = .error e →
      verifyNameInTeamwork search name =
        Json.obj [("name", Json.str name), ("found_in_teamwork", Json.bool false),
          ("error", Json.str e),
          ("verification_status", Json.str "Error - could not verify")]) := by
  refine ⟨fun resp => ?_, fun resp h => by simp [getProjects, h],
    fun search name e h => by simp [verifyNameInTeamwork, h]⟩
  simp only [getProjects, raiseForStatus]
  by_cases h200 : resp.statusCode = 200
  · rw [if_pos h200]
    constructor
    · rintro ⟨e, he⟩
      simp at he
    · intro hr
      rw [h200] at hr
      omega
  · rw [if_neg h200]
    by_cases hr : 400 ≤ resp.statusCode ∧ resp.statusCode < 600
    · rw [if_pos hr]
      exact ⟨fun _ => hr, fun _ => ⟨_, rfl⟩⟩
    · rw [if_neg hr]
      constructor
      · rintro ⟨e, he⟩
        simp at he
      · intro h
        exact absurd h hr

/-- C7, witness. -/
theorem http_error_semantics_witness :
    verifyNameInTeamwork failingSearch "김지원" =
      Json.obj [("name", Json.str "김지원"), ("found_in_teamwork", Json.bool false),
        ("error", Json.str "timeout"),
        ("verification_status", Json.str "Error - could not verify")] ∧
    (∃ e, getProjects ⟨503, Json.obj []⟩ = Except.error e) :=
  ⟨http_error_semantics.2.2 failingSearch "김지원" "timeout" rfl,
   (http_error_semantics.1 ⟨503, Json.obj []⟩).mpr (by decide)⟩

/-- C8.  Writing a result list (or the `process_names` results dict) to
the JSON report and reading it back reproduces the identical value,
including raw non-ASCII Hangul text: the serialization round trip is the
identity on all well-formed stored values. -/
theorem json_report_round_trip :
    (∀ results : List Json, wfJson (Json.arr results) = true →
      loads (dumps (Json.arr results)) = some (Json.arr results)) ∧
    (∀ ko en tw : List Json,
      wfJson (Json.obj [("ko_en_results", Json.arr ko), ("en_ko_results", Json.arr en),
        ("teamwork_verification", Json.arr tw)]) = true →
      loads (dumps (Json.obj [("ko_en_results", Json.arr ko), ("en_ko_results", Json.arr en),
        ("teamwork_verification", Json.arr tw)])) =
        some (Json.obj [("ko_en_results", Json.arr ko), ("en_ko_results", Json.arr en),
          ("teamwork_verification", Json.arr tw)])) :=
  ⟨fun _ h => loads_dumps _ h, fun _ _ _ h => loads_dumps _ h⟩

/-- C8, witness. -/
theorem json_report_round_trip_witness :
    loads (dumps (Json.arr [Json.obj [("name", Json.str "김지원"),
        ("english_notation", Json.str "Kim Ji-won"), ("compliant", Json.bool true),
        ("overall_score", Json.num 97),
        ("recommendations", Json.arr [Json.str "추천 사항"])]])) =
      some (Json.arr [Json.obj [("name", Json.str "김지원"),
        ("english_notation", Json.str "Kim Ji-won"), ("compliant", Json.bool true),
        ("overall_score", Json.num 97),
        ("recommendations", Json.arr [Json.str "추천 사항"])]]) :=
  json_report_round_trip.1
    [Json.obj [("name", Json.str "김지원"),
      ("english_notation", Json.str "Kim Ji-won"), ("compliant", Json.bool true),
      ("overall_score", Json.num 97),
      ("recommendations", Json.arr [Json.str "추천 사항"])]] (by decide)

/-- C9, counterexample.  The claim says every CLI run exits non-zero
when some result is non-compliant.  `name_eval_system.main` returns
without calling `sys.exit`, so the process exits 0 even when a result
record is non-compliant. -/
theorem unified_cli_exit_zero_on_noncompliant :
    (nameEvalSystemMain [] [nonCompliantResult]).2 = 0 ∧
    pyTruthy (jGet nonCompliantResult "compliant" (Json.bool false)) = false :=
  ⟨rfl, rfl⟩

/-- C9, amended.  `korean_name_cli.main` exits 0 exactly when every
result record is compliant (and 1 otherwise); `name_eval_system.main`,
however, always exits 0 after evaluation, regardless of compliance. -/
theorem exit_status_by_cli :
    (∀ (ev : String → Except String Json) (names : List String),
      ((koreanCliMain ev names).2 = 0 ↔
        ∀ r ∈ (koreanCliMain ev names).1,
          pyTruthy (jGet r "compliant" (Json.bool false)) = true)) ∧
    (∀ koResults enResults : List Json,
      (nameEvalSystemMain koResults enResults).2 = 0) := by
  refine ⟨fun ev names => ?_, fun _ _ => rfl⟩
  have hlen : (batchEvaluateNames ev names).length = names.length := by
    simp [batchEvaluateNames]
  simp only [koreanCliMain, koreanCliExit, countCompliantEntries]
  by_cases hc : (batchEvaluateNames ev names).countP
      (fun r => pyTruthy (jGet r "compliant" (Json.bool false))) = names.length
  · rw [if_pos hc]
    rw [← hlen] at hc
    exact ⟨fun _ => List.countP_eq_length.mp hc, fun _ => rfl⟩
  · rw [if_neg hc]
    constructor
    · intro h
      exact absurd h (by decide)
    · intro hall
      exact absurd ((List.countP_eq_length.mpr hall).trans hlen) hc

/-- C9, witness. -/
theorem exit_status_by_cli_witness :
    (koreanCliMain allCompliantEv ["김지원", "박서준"]).2 = 0 :=
  (exit_status_by_cli.1 allCompliantEv ["김지원", "박서준"]).mpr (by decide)

/-- C10, helper fact proved as part of the claim: the
`teamwork_verification` slot of the built evaluation always holds the
very value passed as `teamwork_results`, on every extraction path. -/
theorem extractEvaluation_tw (n : String) (tw : Json) (resp : String) :
    dictGetD (extractEvaluation n tw resp) "teamwork_verification" Json.null = tw := by
  simp only [extractEvaluation]
  cases hl : loads (String.mk (stripFence resp.data)) with
  | none =>
    rcases he : scanEnglish resp.data with _ | cap <;>
      rcases hc : scanCompliant resp.data with _ | b <;>
        rcases hs : scanScore resp.data with _ | sc <;>
          simp only [he, hc, hs] <;> rfl
  | some v =>
    cases v <;>
      first
        | rfl
        | (rcases he : scanEnglish resp.data with _ | cap <;>
            rcases hc : scanCompliant resp.data with _ | b <;>
              rcases hs : scanScore resp.data with _ | sc <;>
                simp only [he, hc, hs] <;> rfl)

/-- C10.  `evaluate_korean_names` hands the Boolean `check_teamwork`
flag to `name_evaluator` in the `teamwork_results` parameter position.
A Boolean is not a dict with a truthy "matches" entry, so the prompt
context is always the fixed "No previous translations found in
Teamwork." string — the evaluator's behaviour depends on the LLM oracle
only at such inputs — and every returned record's
`teamwork_verification` field is that Boolean, not a Teamwork
verification record. -/
theorem teamwork_flag_passed_through :
    (∀ b : Bool,
      teamworkContext (Json.bool b) = "No previous translations found in Teamwork.") ∧
    (∀ (llm llm' : LlmInput → Except String String) (pt rt : String) (names : List String)
      (ct : Bool),
      (∀ inp : LlmInput,
        inp.teamworkContext = "No previous translations found in Teamwork." →
        llm inp = llm' inp) →
      evaluateKoreanNames llm pt rt names ct = evaluateKoreanNames llm' pt rt names ct) ∧
    (∀ (llm : LlmInput → Except String String) (pt rt : String) (names : List String)
      (ct : Bool) (res : List Json),
      evaluateKoreanNames llm pt rt names ct = .ok res →
      ∀ r ∈ res, jGet r "teamwork_verification" Json.null = Json.bool ct) := by
  refine ⟨fun b => rfl, ?_, ?_⟩
  · intro llm llm' pt rt names ct hagree
    induction names with
    | nil => rfl
    | cons x xs ih =>
      have hx : nameEvaluator llm pt rt x (Json.bool ct) =
          nameEvaluator llm' pt rt x (Json.bool ct) := by
        simp only [nameEvaluator]
        rw [hagree ⟨x, pt, rt, teamworkContext (Json.bool ct)⟩ rfl]
      simp only [evaluateKoreanNames, hx, ih]
  · intro llm pt rt names ct res hok r hr
    induction names generalizing res with
    | nil =>
      simp only [evaluateKoreanNames, Except.ok.injEq] at hok
      subst hok
      cases hr
    | cons x xs ih =>
      simp only [evaluateKoreanNames] at hok
      cases hx : nameEvaluator llm pt rt x (Json.bool ct) with
      | error e =>
        rw [hx] at hok
        simp at hok
      | ok r0 =>
        rw [hx] at hok
        cases hxs : evaluateKoreanNames llm pt rt xs ct with
        | error e =>
          rw [hxs] at hok
          simp at hok
        | ok rs =>
          rw [hxs] at hok
          simp only [Except.ok.injEq] at hok
          subst hok
          rcases List.mem_cons.mp hr with heq | hr'
          · subst heq
            cases hllm : llm ⟨x, pt, rt, teamworkContext (Json.bool ct)⟩ with
            | error e =>
              simp only [nameEvaluator, hllm] at hx
              cases hx
            | ok respText =>
              simp only [nameEvaluator, hllm, Except.ok.injEq] at hx
              rw [← hx]
              exact extractEvaluation_tw x (Json.bool ct) respText
          · exact ih rs hxs hr'

/-- C10, witness. -/
theorem teamwork_flag_passed_through_witness :
    jGet freeTextResult "teamwork_verification" Json.null = Json.bool true := by
  have h := teamwork_flag_passed_through.2.2 freeTextLlm "" "" ["김지원"] true
    [freeTextResult] rfl
  exact h freeTextResult (List.mem_singleton.mpr rfl)

end NmEvals
